import Mathlib

/-!
Shallow embedding of the koinos-cli wallet's contract-command layer
(`internal/wallet/contract_commands.go`), the static wallet commands
(`cli_commands.go`: balance, open, create) and the error declarations
(`errors.go`), together with models of the collaborators those files call
(contract registry, ABI field compiler, message codec, filesystem and RPC
oracles).  Collaborator definitions that are not part of the given source
are modelled from the specification and carry a doc comment saying so.
Machine integers are modelled as `Nat`/`Int` with explicit `% 2^32` where
the Go source converts to `uint32`.
-/

set_option autoImplicit false

namespace KoinosCLI

/-- Error taxonomy of the wallet (from `errors.go` and
`internal/util`: `ErrContract`, `ErrInvalidABI`, plus the raw errors the
Go code returns unwrapped, such as a `strconv` parse failure or a
transport error). -/
inductive Err where
  | errContract
  | errInvalidABI
  | errWalletClosed
  | errWalletExists
  | errWalletDecrypt
  | errStrconv
  | errMissingParam
  | errRPC (msg : String)
  | errOther (msg : String)
  deriving DecidableEq, Repr

/-- Outcome of executing one command: a normal result, an ordinary error
value returned to the REPL, or a Go `panic` (process-terminating). -/
inductive Outcome (α : Type) where
  | ok : α → Outcome α
  | error : Err → Outcome α
  | panic : String → Outcome α
  deriving DecidableEq, Repr

/-- `ExecutionResult` from `cli_commands.go`: a list of messages. -/
structure ExecutionResult where
  message : List String
  deriving DecidableEq, Repr

/-- Kind of a schema field (scalar dispatch used by the codec). -/
inductive FieldKind where
  | intKind
  | bytesKind
  | strKind
  deriving DecidableEq, Repr

/-- A field of a message descriptor: name and kind. -/
structure FieldDescriptor where
  name : String
  kind : FieldKind
  deriving DecidableEq, Repr

/-- A named message type with an ordered field list (the Schema
Descriptor of the spec, standing for a protobuf message descriptor). -/
structure MessageDescriptor where
  name : String
  fields : List FieldDescriptor
  deriving DecidableEq, Repr

/-- A logical schema file: the message types it declares
(`protoreflect.FileDescriptor`). -/
structure FileDescriptor where
  messages : List MessageDescriptor
  deriving DecidableEq, Repr

/-- A decoded `descriptorpb.FileDescriptorSet`. -/
structure FileDescriptorSet where
  file : List FileDescriptor
  deriving DecidableEq, Repr

/-- `fDesc.Messages().ByName(name)`: look a message type up by name in a
file descriptor. -/
def messagesByName (fd : FileDescriptor) (n : String) : Option MessageDescriptor :=
  fd.messages.find? (fun m => m.name == n)

/-- An ABI method as parsed from the ABI JSON document: name,
description, entry point (kept as the raw string from the document),
argument and return type names, read-only flag. -/
structure ABIMethod where
  name : String
  description : String
  entryPoint : String
  argument : String
  returnType : String
  readOnly : Bool
  deriving DecidableEq, Repr

/-- The ABI document: the ordered method list and the embedded raw
serialized schema-set blob (`Types`). -/
structure ABI where
  methods : List ABIMethod
  types : List Nat
  deriving DecidableEq, Repr

/-- A registered contract: unique name, address string, its ABI and the
resolved file descriptor.  From the spec's Contract data model. -/
structure Contract where
  name : String
  address : String
  abi : ABI
  fileDescriptor : FileDescriptor
  deriving DecidableEq, Repr

/-- Argument type tags of the command grammar (`CommandArgType`). -/
inductive CommandArgType where
  | address
  | stringArg
  deriving DecidableEq, Repr

/-- `CommandArg`: a declared argument of a command. -/
structure CommandArg where
  name : String
  argType : CommandArgType
  deriving DecidableEq, Repr

/-- The factory a command declaration carries.  The synthesized
declarations use `NewReadContractCommand` or `NewWriteContractCommand`;
modelled as a closed enumeration. -/
inductive Factory where
  | readContract
  | writeContract
  deriving DecidableEq, Repr

/-- `CommandDeclaration` from `cli_commands.go`: name, description,
hidden flag, instantiation factory and argument specs. -/
structure CommandDeclaration where
  name : String
  description : String
  hidden : Bool
  factory : Factory
  args : List CommandArg
  deriving DecidableEq, Repr

/-- The wallet key object (collaborator; only its byte content and the
two display strings matter to the embedded commands). -/
structure KoinosKey where
  privateBytes : List Nat
  addressStr : String
  privateStr : String
  deriving DecidableEq, Repr

/-- A populated dynamic message: field name / value pairs in schema
field order. -/
inductive FieldValue where
  | int (i : Int)
  | bytes (bs : List Nat)
  | str (s : String)
  deriving DecidableEq, Repr

/-- A dynamic protobuf message (`dynamicpb` message), modelled as the
ordered list of populated fields. -/
def DynMessage := List (String × FieldValue)

instance : DecidableEq DynMessage := by
  unfold DynMessage
  infer_instance

/-- `chain.read_contract` request parameters built by the balance
command (`types.ReadContractRequest`). -/
structure ReadContractRequest where
  contractID : List Nat
  entryPoint : Nat
  args : List Nat
  deriving DecidableEq, Repr

/-- `CommandParseResult`: the parsed invocation a synthesized command
closes over — the qualified command name and the name-to-value argument
mapping. -/
structure CommandParseResult where
  commandName : String
  args : List (String × String)
  deriving DecidableEq, Repr

-- ---------------------------------------------------------------------------
-- Contract registry (modelled from the spec, §4.3)
-- ---------------------------------------------------------------------------

/-- Modelled from the spec: `contains(name) -> bool` of the Contract
Registry (§4.3); the registry itself is not among the given source
files. -/
def containsContract (cs : List Contract) (n : String) : Bool :=
  cs.any (fun c => c.name == n)

/-- Modelled from the spec: `add(name, address, abi, fd)` appends a new
contract entry to the registry (§4.3); the duplicate check is performed
by the caller (`RegisterCommand.Execute` line 38). -/
def addContract (cs : List Contract) (n : String) (addr : String) (abi : ABI)
    (fd : FileDescriptor) : List Contract :=
  cs ++ [{ name := n, address := addr, abi := abi, fileDescriptor := fd }]

/-- Scan a reversed character list up to the first dot: returns the
scanned prefix and the remainder (which starts with the dot when one was
found). -/
def spanNoDot : List Char → List Char × List Char
  | [] => ([], [])
  | c :: rest =>
    if c = '.' then ([], c :: rest)
    else
      let r := spanNoDot rest
      (c :: r.1, r.2)

/-- Modelled from the spec: split a qualified command name
`<contract>.<method>` on the last (or only) separator (§4.3); with no
separator the contract part is empty. -/
def splitQualified (s : String) : String × String :=
  match spanNoDot s.data.reverse with
  | (methodRev, []) => ("", String.mk methodRev.reverse)
  | (methodRev, _ :: contractRev) =>
    (String.mk contractRev.reverse, String.mk methodRev.reverse)

/-- Modelled from the spec: `getFromMethodName(qualifiedName)` — look the
contract part of the qualified name up in the registry (§4.3).  The Go
function returns a possibly-nil pointer; dereference happens at the call
sites. -/
def getFromMethodName (cs : List Contract) (q : String) : Option Contract :=
  cs.find? (fun c => c.name == (splitQualified q).1)

/-- Modelled from the spec: `getMethod(qualifiedName)` — the ABI method
of the owning contract whose name is the method part (§4.3). -/
def getMethod (cs : List Contract) (q : String) : Option ABIMethod :=
  match getFromMethodName cs q with
  | none => none
  | some c => c.abi.methods.find? (fun m => m.name == (splitQualified q).2)

/-- Modelled from the spec: `getMethodReturnSchema(qualifiedName)` —
resolve the method's return type name in the contract's schema (§4.3).
The call site (`contract_commands.go` line 160) checks the error. -/
def getMethodReturn (cs : List Contract) (q : String) : Except Err MessageDescriptor :=
  match getFromMethodName cs q with
  | none => .error .errContract
  | some c =>
    match c.abi.methods.find? (fun m => m.name == (splitQualified q).2) with
    | none => .error .errContract
    | some m =>
      match messagesByName c.fileDescriptor m.returnType with
      | none => .error .errInvalidABI
      | some md => .ok md

/-- Modelled from the spec: `addCommand(decl)` extends the grammar's
command set (§4.4).  The call site (`contract_commands.go` line 105)
ignores any duplicate-name result, so the model is a plain append. -/
def addCommand (cmds : List CommandDeclaration) (c : CommandDeclaration) :
    List CommandDeclaration :=
  cmds ++ [c]

/-- Modelled from the spec: `ParseABIFields` derives the argument spec
list from a request schema — one entry per schema field, in field order,
named after the field, tagged `String` (§4.5).  The call site checks an
error, which this model never produces. -/
def ParseABIFields (d : MessageDescriptor) : Except String (List CommandArg) :=
  .ok (d.fields.map (fun f => { name := f.name, argType := CommandArgType.stringArg }))

-- ---------------------------------------------------------------------------
-- Execution environment
-- ---------------------------------------------------------------------------

/-- `ExecutionEnvironment`: the process-wide state — optional open key,
contract registry, grammar command set, RPC transport oracles and the
hardcoded KOIN contract parameters used by the balance command.  The two
source files' environment structs are unified here. -/
structure ExecutionEnvironment where
  key : Option KoinosKey
  contracts : List Contract
  commands : List CommandDeclaration
  rpcCall : String → ReadContractRequest → Except Err (List Nat)
  rpcReadContract : List Nat → List Nat → Nat → Except Err (List Nat)
  rpcWriteMessageContract : DynMessage → Option KoinosKey → List Nat → Nat → Except Err Unit
  koinContractID : List Nat
  koinBalanceOfEntry : Nat

-- ---------------------------------------------------------------------------
-- Register command (`contract_commands.go` lines 25-111)
-- ---------------------------------------------------------------------------

/-- `RegisterCommand`: arguments of the register action. -/
structure RegisterCommand where
  name : String
  address : String
  abiFilename : String
  deriving DecidableEq, Repr

/-- Oracles for the decoding steps of `RegisterCommand.Execute`:
filesystem read (`os.Open` + `ioutil.ReadAll`, both failures wrapped in
`InvalidABI` identically), `json.Unmarshal` into `ABI`,
`proto.Unmarshal` into a `FileDescriptorSet`, and
`protodesc.NewFiles`.  The source assigns but never checks the error of
`NewFiles` (line 67) and `protoregistry.Files` methods are nil-safe, so
a failed `NewFiles` behaves as an empty file list; `newFiles` is
therefore total. -/
structure Codecs where
  readFile : String → Except String (List Nat)
  jsonUnmarshalABI : List Nat → Except String ABI
  protoUnmarshalFDS : List Nat → Except String FileDescriptorSet
  newFiles : FileDescriptorSet → List FileDescriptor

/-- The single-quote character used by the Go `fmt.Sprintf` format
strings around contract names. -/
def quoteChar : String := String.singleton (Char.ofNat 39)

/-- The method-compilation loop of `RegisterCommand.Execute`
(lines 84-106): resolve each method's argument type, derive the argument
specs, build the declaration (read or write factory by the read-only
flag) and add it to the grammar.  An unresolvable type or a field-parse
failure returns `InvalidABI` immediately, keeping whatever was already
installed. -/
def installMethods (contractName : String) (fDesc : FileDescriptor) :
    List ABIMethod → ExecutionEnvironment → Outcome Unit × ExecutionEnvironment
  | [], ee => (.ok (), ee)
  | method :: rest, ee =>
    match messagesByName fDesc method.argument with
    | none => (.error .errInvalidABI, ee)
    | some d =>
      match ParseABIFields d with
      | .error _ => (.error .errInvalidABI, ee)
      | .ok params =>
        let commandName := contractName ++ "." ++ method.name
        let cmd : CommandDeclaration :=
          if method.readOnly then
            { name := commandName, description := method.description, hidden := false,
              factory := .readContract, args := params }
          else
            { name := commandName, description := method.description, hidden := false,
              factory := .writeContract, args := params }
        installMethods contractName fDesc rest
          { ee with commands := addCommand ee.commands cmd }

/-- `RegisterCommand.Execute` (lines 37-111): duplicate-name check, read
and decode the ABI document, require exactly one file descriptor, add
the contract to the registry, then compile and install the method
commands. -/
def RegisterCommand.Execute (cd : Codecs) (c : RegisterCommand)
    (ee : ExecutionEnvironment) : Outcome ExecutionResult × ExecutionEnvironment :=
  if containsContract ee.contracts c.name = true then
    (.error .errContract, ee)
  else
    match cd.readFile c.abiFilename with
    | .error _ => (.error .errInvalidABI, ee)
    | .ok jsonBytes =>
      match cd.jsonUnmarshalABI jsonBytes with
      | .error _ => (.error .errInvalidABI, ee)
      | .ok abi =>
        match cd.protoUnmarshalFDS abi.types with
        | .error _ => (.error .errInvalidABI, ee)
        | .ok fds =>
          match cd.newFiles fds with
          | [fDesc] =>
            let ee1 := { ee with
              contracts := addContract ee.contracts c.name c.address abi fDesc }
            match installMethods c.name fDesc abi.methods ee1 with
            | (.ok _, ee2) =>
              (.ok { message :=
                ["Contract " ++ quoteChar ++ c.name ++ quoteChar ++ " at address "
                  ++ c.address ++ " registered."] }, ee2)
            | (.error e, ee2) => (.error e, ee2)
            | (.panic s, ee2) => (.panic s, ee2)
          | _ => (.error .errInvalidABI, ee)

-- ---------------------------------------------------------------------------
-- Entry point parsing (`contract_commands.go` lines 131 and 201)
-- ---------------------------------------------------------------------------

/-- Value of one hex digit character, if any. -/
def hexVal (c : Char) : Option Nat :=
  if '0' ≤ c ∧ c ≤ '9' then some (c.toNat - '0'.toNat)
  else if 'a' ≤ c ∧ c ≤ 'f' then some (c.toNat - 'a'.toNat + 10)
  else if 'A' ≤ c ∧ c ≤ 'F' then some (c.toNat - 'A'.toNat + 10)
  else none

/-- Accumulate a hex digit list into a natural number; `none` on a
non-hex character. -/
def parseHexNatAux (acc : Nat) : List Char → Option Nat
  | [] => some acc
  | c :: rest =>
    match hexVal c with
    | none => none
    | some v => parseHexNatAux (acc * 16 + v) rest

/-- Parse a nonempty hex digit list; `none` if empty or any character is
not a hex digit. -/
def parseHexNat : List Char → Option Nat
  | [] => none
  | cs => parseHexNatAux 0 cs

/-- `strconv.ParseInt(s, 16, 32)`: optional sign, then nonempty hex
digits, range-checked to signed 32-bit; `none` stands for a non-nil
`strconv` error (including out-of-range). -/
def goParseIntHex32 (cs : List Char) : Option Int :=
  match cs with
  | [] => none
  | c :: rest =>
    let p : Bool × List Char :=
      if c = '-' then (true, rest) else if c = '+' then (false, rest) else (false, cs)
    match parseHexNat p.2 with
    | none => none
    | some n =>
      let v : Int := if p.1 then -(n : Int) else (n : Int)
      if v < -(2 ^ 31) ∨ 2 ^ 31 - 1 < v then none else some v

/-- The entry point conversion performed by both contract commands:
`strconv.ParseInt(method.EntryPoint[2:], 16, 32)`.  Go's `s[2:]` panics
when the string is shorter than two bytes; otherwise the first two
characters are discarded and the rest parsed as hex.  (Entry point
strings are ASCII, so byte slicing and character dropping agree.) -/
def parseEntryPoint (s : String) : Outcome Int :=
  if s.data.length < 2 then .panic "slice bounds out of range"
  else
    match goParseIntHex32 (s.data.drop 2) with
    | none => .error .errStrconv
    | some v => .ok v

/-- Go's `uint32(x)` conversion of the parsed 64-bit entry point value:
reduction modulo `2^32` (nonnegative representative). -/
def toUInt32 (x : Int) : Nat := (x % (2 ^ 32 : Int)).toNat

-- ---------------------------------------------------------------------------
-- Hex address decoding (`internal/util.HexStringToBytes`)
-- ---------------------------------------------------------------------------

/-- Decode pairs of hex digits into bytes; error on an odd-length or
non-hex input. -/
def decodeHexPairs : List Char → Except String (List Nat)
  | [] => .ok []
  | [_] => .error "odd length hex string"
  | c1 :: c2 :: rest =>
    match hexVal c1, hexVal c2 with
    | some h1, some h2 => (decodeHexPairs rest).map (fun bs => (h1 * 16 + h2) :: bs)
    | _, _ => .error "invalid hex character"

/-- Remove a leading `0x` marker from a character list, if present. -/
def stripHexMarker : List Char → List Char
  | '0' :: 'x' :: rest => rest
  | cs => cs

/-- Modelled from the spec: `util.HexStringToBytes` (not among the given
source files) — byte/address fields accept hex-encoded strings with or
without a leading `0x` marker and are decoded to raw bytes; a malformed
hex string is an error (§4.6). -/
def HexStringToBytes (s : String) : Except String (List Nat) :=
  decodeHexPairs (stripHexMarker s.data)

-- ---------------------------------------------------------------------------
-- Message codec (modelled from the spec, §4.6)
-- ---------------------------------------------------------------------------

/-- Value of one decimal digit character, if any. -/
def decVal (c : Char) : Option Nat :=
  if '0' ≤ c ∧ c ≤ '9' then some (c.toNat - '0'.toNat) else none

/-- Accumulate a decimal digit list into a natural number; `none` on a
non-digit character. -/
def parseDecNatAux (acc : Nat) : List Char → Option Nat
  | [] => some acc
  | c :: rest =>
    match decVal c with
    | none => none
    | some v => parseDecNatAux (acc * 10 + v) rest

/-- Parse a nonempty decimal digit list. -/
def parseDecNat : List Char → Option Nat
  | [] => none
  | cs => parseDecNatAux 0 cs

/-- Base-10 integer parse with optional sign (Go `strconv` base-10
parsing as used by the codec's integer coercion). -/
def goParseDecInt (cs : List Char) : Option Int :=
  match cs with
  | [] => none
  | c :: rest =>
    let p : Bool × List Char :=
      if c = '-' then (true, rest) else if c = '+' then (false, rest) else (false, cs)
    match parseDecNat p.2 with
    | none => none
    | some n => some (if p.1 then -(n : Int) else (n : Int))

/-- Modelled from the spec: coercion of one raw string argument to a
schema field's native kind — integers base-10 parsed, byte fields
hex-decoded, string fields taken as-is (§4.6). -/
def coerceValue (k : FieldKind) (raw : String) : Option FieldValue :=
  match k with
  | .intKind =>
    match goParseDecInt raw.data with
    | none => none
    | some i => some (.int i)
  | .bytesKind =>
    match HexStringToBytes raw with
    | .error _ => none
    | .ok bs => some (.bytes bs)
  | .strKind => some (.str raw)

/-- Modelled from the spec: populate each schema field from the parsed
argument mapping; a missing argument is `MissingParam`, a coercion
failure is `InvalidABI`-class (§4.6). -/
def coerceFields : List FieldDescriptor → List (String × String) → Except Err DynMessage
  | [], _ => .ok []
  | f :: rest, args =>
    match args.lookup f.name with
    | none => .error .errMissingParam
    | some raw =>
      match coerceValue f.kind raw with
      | none => .error .errInvalidABI
      | some v => (coerceFields rest args).map (fun m => (f.name, v) :: m)

/-- Modelled from the spec: `ParseResultToMessage` (not among the given
source files) — resolve the invoked method's argument schema through the
registry and build the populated request message from the parsed
arguments (§4.6). -/
def ParseResultToMessage (pr : CommandParseResult) (contracts : List Contract) :
    Except Err DynMessage :=
  match getFromMethodName contracts pr.commandName, getMethod contracts pr.commandName with
  | some c, some m =>
    match messagesByName c.fileDescriptor m.argument with
    | none => .error .errInvalidABI
    | some d => coerceFields d.fields pr.args
  | _, _ => .error .errInvalidABI

/-- Big-endian base-256 rendering of a natural number (empty for 0). -/
def natToBytes : Nat → List Nat
  | 0 => []
  | n + 1 => natToBytes ((n + 1) / 256) ++ [(n + 1) % 256]
decreasing_by exact Nat.div_lt_self (Nat.succ_pos n) (by omega)

/-- Big-endian base-256 value of a byte list. -/
def bytesToNat (bs : List Nat) : Nat :=
  bs.foldl (fun a b => a * 256 + b) 0

/-- Wire bytes of one field value. -/
def encodeValue : FieldValue → List Nat
  | .int i => natToBytes i.toNat
  | .bytes bs => bs
  | .str s => s.data.map Char.toNat

/-- Modelled from the spec: `proto.Marshal` on a populated dynamic
message — serialize the populated fields to wire bytes
(length-prefixed, in field order).  The call site checks an error,
which this model never produces (§4.6). -/
def protoMarshal (m : DynMessage) : Except String (List Nat) :=
  .ok ((m.map (fun p => (encodeValue p.2).length :: encodeValue p.2)).flatten)

/-- Modelled from the spec: parsing raw response bytes against a schema
descriptor into a structured value — one length-prefixed payload per
schema field, decoded by the field's kind; truncated input is an
error (§4.6). -/
def unmarshalFields : List FieldDescriptor → List Nat → Except String DynMessage
  | [], _ => .ok []
  | f :: rest, b =>
    match b with
    | [] => .error "unexpected end of payload"
    | len :: t =>
      if len ≤ t.length then
        let payload := t.take len
        let v : FieldValue :=
          match f.kind with
          | .intKind => .int (Int.ofNat (bytesToNat payload))
          | .bytesKind => .bytes payload
          | .strKind => .str (String.mk (payload.map Char.ofNat))
        (unmarshalFields rest (t.drop len)).map (fun m => (f.name, v) :: m)
      else .error "truncated field"

/-- Modelled from the spec: `proto.Unmarshal` of a response payload into
a dynamic message of the given descriptor (`dynamicpb.NewMessage(md)`
then unmarshal, `contract_commands.go` lines 165-166) (§4.6). -/
def protoUnmarshalDyn (md : MessageDescriptor) (b : List Nat) : Except String DynMessage :=
  unmarshalFields md.fields b

/-- Lower-case hex digit character for a value below 16. -/
def hexDigitChar (n : Nat) : Char :=
  Char.ofNat (if n < 10 then 48 + n else 87 + n)

/-- Render a byte list as lower-case hex text. -/
def renderBytes (bs : List Nat) : String :=
  String.mk ((bs.map (fun b => [hexDigitChar (b / 16), hexDigitChar (b % 16)])).flatten)

/-- Render one field value as text. -/
def renderFieldValue : FieldValue → String
  | .int i => toString i
  | .bytes bs => renderBytes bs
  | .str s => s

/-- Join rendered lines with newlines. -/
def joinLines : List String → String
  | [] => ""
  | [x] => x
  | x :: y :: rest => x ++ "\n" ++ joinLines (y :: rest)

/-- Modelled from the spec: `prototext.Marshal` — render a structured
value as `field-name: value` lines (§4.6; the exact text shape is an
external-interface detail, but the rendering is a function of the
message alone). -/
def prototextMarshal (m : DynMessage) : Except String String :=
  .ok (joinLines (m.map (fun p => p.1 ++ ": " ++ renderFieldValue p.2)))

/-- The decode-and-render step of `ReadContractCommand.Execute`
(lines 165-178): unmarshal the response payload against the return
schema, then render it as text. -/
def decodeAndRender (md : MessageDescriptor) (b : List Nat) : Except String String :=
  match protoUnmarshalDyn md b with
  | .error e => .error e
  | .ok dMsg => prototextMarshal dMsg

-- ---------------------------------------------------------------------------
-- Read contract command (`contract_commands.go` lines 118-181)
-- ---------------------------------------------------------------------------

/-- `ReadContractCommand`: backend for synthesized read commands; closes
over the parse result only. -/
structure ReadContractCommand where
  parseResult : CommandParseResult
  deriving DecidableEq, Repr

/-- `ReadContractCommand.Execute` (lines 128-181): look the contract and
method up from the qualified command name, parse the entry point, build
and marshal the request message, hex-decode the stored contract address
(panicking on failure, line 151), issue the RPC read, resolve the return
descriptor and decode-and-render the response.  A nil contract or method
pointer is dereferenced where the Go source dereferences it. -/
def ReadContractCommand.Execute (c : ReadContractCommand)
    (ee : ExecutionEnvironment) : Outcome ExecutionResult × ExecutionEnvironment :=
  let contractOpt := getFromMethodName ee.contracts c.parseResult.commandName
  match getMethod ee.contracts c.parseResult.commandName with
  | none => (.panic "nil pointer dereference", ee)
  | some method =>
    match parseEntryPoint method.entryPoint with
    | .panic s => (.panic s, ee)
    | .error e => (.error e, ee)
    | .ok entryPoint =>
      match ParseResultToMessage c.parseResult ee.contracts with
      | .error _ => (.error .errInvalidABI, ee)
      | .ok msg =>
        match protoMarshal msg with
        | .error s => (.error (.errOther s), ee)
        | .ok argBytes =>
          match contractOpt with
          | none => (.panic "nil pointer dereference", ee)
          | some contract =>
            match HexStringToBytes contract.address with
            | .error _ => (.panic "Invalid contract ID", ee)
            | .ok contractID =>
              match ee.rpcReadContract argBytes contractID (toUInt32 entryPoint) with
              | .error e => (.error e, ee)
              | .ok result =>
                match getMethodReturn ee.contracts c.parseResult.commandName with
                | .error e => (.error e, ee)
                | .ok md =>
                  match protoUnmarshalDyn md result with
                  | .error s => (.error (.errOther s), ee)
                  | .ok dMsg =>
                    match prototextMarshal dMsg with
                    | .error s => (.error (.errOther s), ee)
                    | .ok b => (.ok { message := [b] }, ee)

-- ---------------------------------------------------------------------------
-- Write contract command (`contract_commands.go` lines 188-227)
-- ---------------------------------------------------------------------------

/-- `WriteContractCommand`: backend for synthesized write commands. -/
structure WriteContractCommand where
  parseResult : CommandParseResult
  deriving DecidableEq, Repr

/-- `WriteContractCommand.Execute` (lines 198-227): look the contract
and method up, parse the entry point, build the request message,
hex-decode the stored address (panicking on failure, line 215) and
submit the transaction, passing `ee.Key` — possibly nil — straight to
the RPC client; there is no open-wallet check. -/
def WriteContractCommand.Execute (c : WriteContractCommand)
    (ee : ExecutionEnvironment) : Outcome ExecutionResult × ExecutionEnvironment :=
  let contractOpt := getFromMethodName ee.contracts c.parseResult.commandName
  match getMethod ee.contracts c.parseResult.commandName with
  | none => (.panic "nil pointer dereference", ee)
  | some method =>
    match parseEntryPoint method.entryPoint with
    | .panic s => (.panic s, ee)
    | .error e => (.error e, ee)
    | .ok entryPoint =>
      match ParseResultToMessage c.parseResult ee.contracts with
      | .error _ => (.error .errInvalidABI, ee)
      | .ok msg =>
        match contractOpt with
        | none => (.panic "nil pointer dereference", ee)
        | some contract =>
          match HexStringToBytes contract.address with
          | .error _ => (.panic "Invalid contract ID", ee)
          | .ok contractID =>
            match ee.rpcWriteMessageContract msg ee.key contractID (toUInt32 entryPoint) with
            | .error e => (.error e, ee)
            | .ok _ =>
              (.ok { message :=
                ["Transaction submitted to contract " ++ quoteChar ++ contract.name
                  ++ quoteChar ++ " at address " ++ contract.address ++ " ."] }, ee)

-- ---------------------------------------------------------------------------
-- Balance command (`cli_commands.go`, BalanceCommand)
-- ---------------------------------------------------------------------------

/-- Hardcoded constants of the balance command. -/
def ReadContractCall : String := "chain.read_contract"

/-- KOIN token symbol displayed by the balance command. -/
def KoinSymbol : String := "tKOIN"

/-- Decimal precision of the KOIN token. -/
def KoinPrecision : Nat := 8

/-- `BalanceCommand`: the queried account address. -/
structure BalanceCommand where
  address : String
  deriving DecidableEq, Repr

/-- Modelled from the spec: `AccountType.Serialize` into a variable
blob — the balance command's argument serialization is an external
collaborator (§6); modelled as a length-prefixed byte rendering. -/
def serializeAccount (a : String) : List Nat :=
  a.data.length :: a.data.map Char.toNat

/-- Modelled from the spec: `types.DeserializeUInt64` of the read
response — an eight-byte big-endian integer; shorter input is an
error. -/
def DeserializeUInt64 (b : List Nat) : Except Err Nat :=
  if b.length < 8 then .error (.errOther "unexpected end of variable blob")
  else .ok (bytesToNat (b.take 8))

/-- Modelled from the spec: `SatoshiToDecimal` — divide the raw integer
balance by `10^precision` and render it for display; command glue
outside the specified core (§1). -/
def SatoshiToDecimal (value : Int) (precision : Nat) : Except Err String :=
  let d : Int := (10 : Int) ^ precision
  .ok (toString (value / d) ++ "." ++ toString (value % d))

/-- `BalanceCommand.Execute` (`cli_commands.go` lines 148-180): build
the `chain.read_contract` request from the hardcoded KOIN contract ID
and entry point, call the RPC client, deserialize the 64-bit balance and
render it.  No field of the environment is assigned. -/
def BalanceCommand.Execute (c : BalanceCommand)
    (ee : ExecutionEnvironment) : Outcome ExecutionResult × ExecutionEnvironment :=
  let params : ReadContractRequest :=
    { contractID := ee.koinContractID, entryPoint := ee.koinBalanceOfEntry,
      args := serializeAccount c.address }
  match ee.rpcCall ReadContractCall params with
  | .error e => (.error e, ee)
  | .ok result =>
    match DeserializeUInt64 result with
    | .error e => (.error e, ee)
    | .ok balance =>
      match SatoshiToDecimal (Int.ofNat balance) KoinPrecision with
      | .error e => (.error e, ee)
      | .ok dec =>
        (.ok { message := [dec ++ " " ++ KoinSymbol] }, ee)

-- ---------------------------------------------------------------------------
-- Open and create commands (`cli_commands.go`, OpenCommand / CreateCommand)
-- ---------------------------------------------------------------------------

/-- An opened file handle, identified by its path. -/
def FileHandle := String

/-- Oracles for the wallet commands' collaborators: filesystem checks
and the encrypted wallet file store (§6 of the spec).  `statNotExists`
is `os.IsNotExist(err)` for the `os.Stat` result; `generateKoinosKey`
models `GenerateKoinosKey`, `newKoinosKeysFromBytes` models
`NewKoinosKeysFromBytes`. -/
structure WalletStore where
  statNotExists : String → Bool
  createFile : String → Except Err FileHandle
  osOpen : String → Except Err FileHandle
  readWalletFile : FileHandle → String → Except Err (List Nat)
  createWalletFile : FileHandle → String → List Nat → Except Err Unit
  generateKoinosKey : Except Err KoinosKey
  newKoinosKeysFromBytes : List Nat → Except Err KoinosKey

/-- `OpenCommand`: filename and password arguments. -/
structure OpenCommand where
  filename : String
  password : String
  deriving DecidableEq, Repr

/-- `CreateCommand`: filename and password arguments. -/
structure CreateCommand where
  filename : String
  password : String
  deriving DecidableEq, Repr

/-- `OpenCommand.Execute` (`cli_commands.go` lines 323-349): open the
wallet file, read and decrypt it (a failure is reported as
`ErrWalletDecrypt`), construct the key object, and only then assign
`ee.Key`. -/
def OpenCommand.Execute (w : WalletStore) (c : OpenCommand)
    (ee : ExecutionEnvironment) : Outcome ExecutionResult × ExecutionEnvironment :=
  match w.osOpen c.filename with
  | .error e => (.error e, ee)
  | .ok file =>
    match w.readWalletFile file c.password with
    | .error _ => (.error .errWalletDecrypt, ee)
    | .ok keyBytes =>
      match w.newKoinosKeysFromBytes keyBytes with
      | .error e => (.error e, ee)
      | .ok key =>
        (.ok { message := ["Opened wallet: " ++ c.filename] },
          { ee with key := some key })

/-- `CreateCommand.Execute` (`cli_commands.go` lines 245-278): fail with
`ErrWalletExists` unless `os.Stat` reports not-exists, create the file,
generate a key, write the wallet file, and only then assign `ee.Key`. -/
def CreateCommand.Execute (w : WalletStore) (c : CreateCommand)
    (ee : ExecutionEnvironment) : Outcome ExecutionResult × ExecutionEnvironment :=
  if ¬ (w.statNotExists c.filename = true) then
    (.error .errWalletExists, ee)
  else
    match w.createFile c.filename with
    | .error e => (.error e, ee)
    | .ok file =>
      match w.generateKoinosKey with
      | .error e => (.error e, ee)
      | .ok key =>
        match w.createWalletFile file c.password key.privateBytes with
        | .error e => (.error e, ee)
        | .ok _ =>
          (.ok { message := ["Created and opened new wallet: " ++ c.filename,
                             "Use the info command to see details"] },
            { ee with key := some key })

-- ---------------------------------------------------------------------------
-- Helper lemmas about the method-compilation loop
-- ---------------------------------------------------------------------------

/-- The method loop only extends the grammar: registry and key are
untouched. -/
theorem installMethods_preserves (cn : String) (fd : FileDescriptor) :
    ∀ (ms : List ABIMethod) (ee : ExecutionEnvironment),
      ((installMethods cn fd ms ee).2).contracts = ee.contracts ∧
      ((installMethods cn fd ms ee).2).key = ee.key := by
  intro ms
  induction ms with
  | nil => intro ee; exact ⟨rfl, rfl⟩
  | cons m rest ih =>
    intro ee
    unfold installMethods
    cases hm : messagesByName fd m.argument with
    | none => exact ⟨rfl, rfl⟩
    | some d =>
      simp only [ParseABIFields]
      exact ih _

/-- The synthesized declaration the loop builds for one method. -/
def synthesizedDecl (cn : String) (fd : FileDescriptor) (m : ABIMethod) :
    CommandDeclaration :=
  { name := cn ++ "." ++ m.name, description := m.description, hidden := false,
    factory := if m.readOnly then Factory.readContract else Factory.writeContract,
    args := ((messagesByName fd m.argument).map
      (fun d => d.fields.map (fun f =>
        ({ name := f.name, argType := CommandArgType.stringArg } : CommandArg)))).getD [] }

/-- When every method's argument type resolves, the loop succeeds and
appends exactly one synthesized declaration per method, in order. -/
theorem installMethods_ok (cn : String) (fd : FileDescriptor) :
    ∀ (ms : List ABIMethod) (ee : ExecutionEnvironment),
      (∀ m ∈ ms, (messagesByName fd m.argument).isSome = true) →
      installMethods cn fd ms ee =
        (.ok (), { ee with commands := ee.commands ++ ms.map (synthesizedDecl cn fd) }) := by
  intro ms
  induction ms with
  | nil =>
    intro ee _
    simp [installMethods]
  | cons m rest ih =>
    intro ee h
    obtain ⟨d, hd⟩ := Option.isSome_iff_exists.mp (h m (List.mem_cons_self m rest))
    unfold installMethods
    rw [hd]
    simp only [ParseABIFields]
    rw [ih _ (fun x hx => h x (List.mem_cons_of_mem m hx))]
    simp only [List.map_cons, synthesizedDecl, hd, Option.map_some, Option.getD_some,
      addCommand]
    cases hro : m.readOnly <;>
      simp [List.append_assoc, List.singleton_append]

/-- When some method's argument type is absent from the schema, the loop
fails with `InvalidABI`. -/
theorem installMethods_err (cn : String) (fd : FileDescriptor) :
    ∀ (ms : List ABIMethod) (ee : ExecutionEnvironment),
      (∃ m ∈ ms, messagesByName fd m.argument = none) →
      (installMethods cn fd ms ee).1 = .error .errInvalidABI := by
  intro ms
  induction ms with
  | nil =>
    intro ee h
    rcases h with ⟨m, hm, _⟩
    cases hm
  | cons m rest ih =>
    intro ee h
    unfold installMethods
    cases hm : messagesByName fd m.argument with
    | none => rfl
    | some d =>
      simp only [ParseABIFields]
      apply ih
      rcases h with ⟨b, hb, hnone⟩
      rcases List.mem_cons.mp hb with h1 | h2
      · subst h1; rw [hm] at hnone; cases hnone
      · exact ⟨b, h2, hnone⟩

/-- A freshly added contract is found by `containsContract`. -/
theorem containsContract_addContract (cs : List Contract) (n addr : String)
    (abi : ABI) (fd : FileDescriptor) :
    containsContract (addContract cs n addr abi fd) n = true := by
  simp [containsContract, addContract]

-- ---------------------------------------------------------------------------
-- Concrete fixtures shared by the claims' witnesses and counterexamples
-- ---------------------------------------------------------------------------

/-- RPC read oracle answering every read with the wire bytes of
`{value: 500}` in the modelled encoding. -/
def rpcReadOk : List Nat → List Nat → Nat → Except Err (List Nat) :=
  fun _ _ _ => .ok [2, 1, 244]

/-- RPC write oracle accepting every submission. -/
def rpcWriteOk : DynMessage → Option KoinosKey → List Nat → Nat → Except Err Unit :=
  fun _ _ _ _ => .ok ()

/-- RPC call oracle answering the balance query with eight bytes
encoding 500. -/
def rpcCallOk : String → ReadContractRequest → Except Err (List Nat) :=
  fun _ _ => .ok [0, 0, 0, 0, 0, 0, 1, 244]

/-- An initial environment: no open wallet, no contracts, no synthesized
commands. -/
def emptyEE : ExecutionEnvironment :=
  { key := none, contracts := [], commands := [],
    rpcCall := rpcCallOk, rpcReadContract := rpcReadOk,
    rpcWriteMessageContract := rpcWriteOk,
    koinContractID := [70], koinBalanceOfEntry := 1 }

/-- Request schema of the `balance_of` method. -/
def balanceArgsDesc : MessageDescriptor :=
  { name := "balance_of_args", fields := [{ name := "owner", kind := .bytesKind }] }

/-- Response schema of the `balance_of` method. -/
def balanceRetDesc : MessageDescriptor :=
  { name := "balance_of_result", fields := [{ name := "value", kind := .intKind }] }

/-- Request schema of the `transfer` method. -/
def transferArgsDesc : MessageDescriptor :=
  { name := "transfer_args",
    fields := [{ name := "to", kind := .bytesKind }, { name := "value", kind := .intKind }] }

/-- The token contract's single schema file. -/
def tokenFD : FileDescriptor :=
  { messages := [balanceArgsDesc, balanceRetDesc, transferArgsDesc] }

/-- The read-only `balance_of` method at entry point `0x10`. -/
def balanceOfMethod : ABIMethod :=
  { name := "balance_of", description := "Checks the balance at an address",
    entryPoint := "0x10", argument := "balance_of_args",
    returnType := "balance_of_result", readOnly := true }

/-- The non-read-only `transfer` method at entry point `0x1b`. -/
def transferMethod : ABIMethod :=
  { name := "transfer", description := "Transfers the token",
    entryPoint := "0x1b", argument := "transfer_args",
    returnType := "balance_of_result", readOnly := false }

/-- A well-formed token ABI: both methods resolve in `tokenFD`. -/
def tokenABI : ABI :=
  { methods := [balanceOfMethod, transferMethod], types := [1] }

/-- The registered token contract at address `0x1234`. -/
def tokenContract : Contract :=
  { name := "token", address := "0x1234", abi := tokenABI, fileDescriptor := tokenFD }

/-- Environment with the token contract registered and no open
wallet. -/
def eeToken : ExecutionEnvironment :=
  { emptyEE with contracts := [tokenContract] }

/-- Codecs that decode any register input to the token ABI with exactly
one file. -/
def tokenCodecs : Codecs :=
  { readFile := fun _ => .ok [1], jsonUnmarshalABI := fun _ => .ok tokenABI,
    protoUnmarshalFDS := fun _ => .ok { file := [tokenFD] },
    newFiles := fun fds => fds.file }

/-- The `burn` method of the broken ABI: its argument type name is
absent from the schema file. -/
def burnMethod : ABIMethod :=
  { name := "burn", description := "Burns the token", entryPoint := "0x22",
    argument := "burn_args", returnType := "balance_of_result", readOnly := false }

/-- An ABI whose second method's argument type does not resolve. -/
def badABI : ABI :=
  { methods := [balanceOfMethod, burnMethod], types := [1] }

/-- Codecs decoding any register input to the broken ABI. -/
def badCodecs : Codecs :=
  { tokenCodecs with jsonUnmarshalABI := fun _ => .ok badABI }

/-- The register invocation for the token contract. -/
def regToken : RegisterCommand :=
  { name := "token", address := "0x1234", abiFilename := "token.json" }

-- ---------------------------------------------------------------------------
-- Claims
-- ---------------------------------------------------------------------------

/-- Claim C6 (confirmed): registering a contract under a name already
present in the registry fails with the `ContractExists` error
(`util.ErrContract`) before any other step, and the environment —
registry, the original contract's entry and its installed commands — is
returned unchanged. -/
theorem claim_C6 (cd : Codecs) (c : RegisterCommand) (ee : ExecutionEnvironment)
    (h : containsContract ee.contracts c.name = true) :
    RegisterCommand.Execute cd c ee = (.error .errContract, ee) := by
  unfold RegisterCommand.Execute
  rw [h]
  simp

/-- Witness for C6: re-registering the already-registered `token`
contract fails with `ContractExists` and leaves the environment as it
was. -/
theorem claim_C6_witness :
    RegisterCommand.Execute tokenCodecs
        { name := "token", address := "0xabcd", abiFilename := "other.json" } eeToken =
      (.error .errContract, eeToken) :=
  claim_C6 tokenCodecs
    { name := "token", address := "0xabcd", abiFilename := "other.json" } eeToken (by decide)

/-- Claim C7 (confirmed): once the embedded schema-set bytes are decoded
during registration, a file-descriptor list that does not have exactly
one entry (zero files or several) makes the whole register action fail
with `InvalidABI` and leaves the environment unchanged, while a
single-file set proceeds to contract registration (the contract name
becomes present in the resulting registry). -/
theorem claim_C7 (cd : Codecs) (c : RegisterCommand) (ee : ExecutionEnvironment)
    (jsonBytes : List Nat) (abi : ABI) (fds : FileDescriptorSet)
    (hc : containsContract ee.contracts c.name = false)
    (hr : cd.readFile c.abiFilename = .ok jsonBytes)
    (hj : cd.jsonUnmarshalABI jsonBytes = .ok abi)
    (hp : cd.protoUnmarshalFDS abi.types = .ok fds) :
    ((cd.newFiles fds).length ≠ 1 →
        RegisterCommand.Execute cd c ee = (.error .errInvalidABI, ee)) ∧
      (∀ fDesc, cd.newFiles fds = [fDesc] →
        containsContract ((RegisterCommand.Execute cd c ee).2).contracts c.name = true) := by
  constructor
  · intro hlen
    cases hn : cd.newFiles fds with
    | nil => simp [RegisterCommand.Execute, hc, hr, hj, hp, hn]
    | cons f rest =>
      cases rest with
      | nil => exact absurd (by simp [hn]) hlen
      | cons g rest2 => simp [RegisterCommand.Execute, hc, hr, hj, hp, hn]
  · intro fDesc hn
    have hpre := (installMethods_preserves c.name fDesc abi.methods
      { ee with contracts := addContract ee.contracts c.name c.address abi fDesc }).1
    rcases h2 : installMethods c.name fDesc abi.methods
        { ee with contracts := addContract ee.contracts c.name c.address abi fDesc }
      with ⟨o, ee2⟩
    rw [h2] at hpre
    have hc2 : ee2.contracts = addContract ee.contracts c.name c.address abi fDesc := hpre
    cases o <;>
      simp [RegisterCommand.Execute, hc, hr, hj, hp, hn, h2, hc2,
        containsContract_addContract]

/-- Witness for C7: a zero-file schema set is rejected with
`InvalidABI` and nothing is registered. -/
theorem claim_C7_witness :
    RegisterCommand.Execute
        { tokenCodecs with protoUnmarshalFDS := fun _ => .ok { file := [] } }
        regToken emptyEE =
      (.error .errInvalidABI, emptyEE) :=
  (claim_C7
    { tokenCodecs with protoUnmarshalFDS := fun _ => .ok { file := [] } }
    regToken emptyEE [1] tokenABI { file := [] } rfl rfl rfl rfl).1 (by decide)

/-- Claim C5 (confirmed): for a valid ABI document decoding to exactly
one schema file in which every method's argument type resolves,
registration succeeds, adds the contract, and installs exactly one
synthesized declaration per method, in order — named
`<contract>.<method>`, carrying the method's description, with the
read-contract factory exactly when the method's read-only flag is set
(`synthesizedDecl`). -/
theorem claim_C5 (cd : Codecs) (c : RegisterCommand) (ee : ExecutionEnvironment)
    (jsonBytes : List Nat) (abi : ABI) (fds : FileDescriptorSet) (fDesc : FileDescriptor)
    (hc : containsContract ee.contracts c.name = false)
    (hr : cd.readFile c.abiFilename = .ok jsonBytes)
    (hj : cd.jsonUnmarshalABI jsonBytes = .ok abi)
    (hp : cd.protoUnmarshalFDS abi.types = .ok fds)
    (hn : cd.newFiles fds = [fDesc])
    (hm : ∀ m ∈ abi.methods, (messagesByName fDesc m.argument).isSome = true) :
    RegisterCommand.Execute cd c ee =
      (.ok { message := ["Contract " ++ quoteChar ++ c.name ++ quoteChar
          ++ " at address " ++ c.address ++ " registered."] },
        { ee with
          contracts := addContract ee.contracts c.name c.address abi fDesc,
          commands := ee.commands ++ abi.methods.map (synthesizedDecl c.name fDesc) }) := by
  have hI := installMethods_ok c.name fDesc abi.methods
    { ee with contracts := addContract ee.contracts c.name c.address abi fDesc } hm
  simp [RegisterCommand.Execute, hc, hr, hj, hp, hn, hI]

/-- Witness for C5: registering the token ABI installs exactly its two
commands, `token.balance_of` (read factory) and `token.transfer` (write
factory). -/
theorem claim_C5_witness :
    ((RegisterCommand.Execute tokenCodecs regToken emptyEE).2).commands.map
        (fun d => (d.name, d.description, d.factory)) =
      [("token.balance_of", "Checks the balance at an address", Factory.readContract),
        ("token.transfer", "Transfers the token", Factory.writeContract)] := by
  rw [claim_C5 tokenCodecs regToken emptyEE [1] tokenABI { file := [tokenFD] } tokenFD
    rfl rfl rfl rfl rfl (by decide)]
  rfl

/-- Counterexample to claim C1: registering an ABI whose `burn` method's
argument type is absent fails with `InvalidABI`, yet the contract entry
HAS been added to the registry and the command synthesized from the
preceding `balance_of` method HAS been installed — registration is not
atomic. -/
theorem claim_C1_counterexample :
    (RegisterCommand.Execute badCodecs regToken emptyEE).1 = .error .errInvalidABI ∧
      containsContract ((RegisterCommand.Execute badCodecs regToken emptyEE).2).contracts
        "token" = true ∧
      ((RegisterCommand.Execute badCodecs regToken emptyEE).2).commands.map
        (fun d => d.name) = ["token.balance_of"] := by
  refine ⟨?_, ?_, ?_⟩ <;> rfl

/-- Claim C1 as amended (the code is not atomic): whenever some ABI
method's argument type name is absent from the decoded single-file
schema set, the register action fails with `InvalidABI`, but the
contract entry has already been added to the registry before method
compilation (and declarations installed for methods preceding the
failing one remain in the grammar). -/
theorem claim_C1 (cd : Codecs) (c : RegisterCommand) (ee : ExecutionEnvironment)
    (jsonBytes : List Nat) (abi : ABI) (fds : FileDescriptorSet) (fDesc : FileDescriptor)
    (hc : containsContract ee.contracts c.name = false)
    (hr : cd.readFile c.abiFilename = .ok jsonBytes)
    (hj : cd.jsonUnmarshalABI jsonBytes = .ok abi)
    (hp : cd.protoUnmarshalFDS abi.types = .ok fds)
    (hn : cd.newFiles fds = [fDesc])
    (hbad : ∃ m ∈ abi.methods, messagesByName fDesc m.argument = none) :
    (RegisterCommand.Execute cd c ee).1 = .error .errInvalidABI ∧
      ((RegisterCommand.Execute cd c ee).2).contracts =
        addContract ee.contracts c.name c.address abi fDesc := by
  have herr := installMethods_err c.name fDesc abi.methods
    { ee with contracts := addContract ee.contracts c.name c.address abi fDesc } hbad
  have hpre := (installMethods_preserves c.name fDesc abi.methods
    { ee with contracts := addContract ee.contracts c.name c.address abi fDesc }).1
  rcases h2 : installMethods c.name fDesc abi.methods
      { ee with contracts := addContract ee.contracts c.name c.address abi fDesc }
    with ⟨o, ee2⟩
  rw [h2] at herr hpre
  have hc2 : ee2.contracts = addContract ee.contracts c.name c.address abi fDesc := hpre
  cases o with
  | ok u => cases herr
  | error e =>
    cases herr
    simp [RegisterCommand.Execute, hc, hr, hj, hp, hn, h2, hc2]
  | panic s => cases herr

/-- Witness for the amended claim C1 at the concrete broken ABI. -/
theorem claim_C1_witness :
    (RegisterCommand.Execute badCodecs regToken emptyEE).1 = .error .errInvalidABI ∧
      ((RegisterCommand.Execute badCodecs regToken emptyEE).2).contracts =
        addContract emptyEE.contracts "token" "0x1234" badABI tokenFD :=
  claim_C1 badCodecs regToken emptyEE [1] badABI { file := [tokenFD] } tokenFD
    rfl rfl rfl rfl rfl ⟨burnMethod, by decide, rfl⟩

/-- Parsed invocation of `token.balance_of` with a hex `owner`
argument. -/
def balanceOfInvocation : CommandParseResult :=
  { commandName := "token.balance_of", args := [("owner", "abcd")] }

/-- Parsed invocation of `token.transfer` with hex `to` and decimal
`value` arguments. -/
def transferInvocation : CommandParseResult :=
  { commandName := "token.transfer", args := [("to", "abcd"), ("value", "100")] }

/-- Claim C2 (code bug): with no wallet open (`eeToken.key = none`), a
synthesized read invocation succeeds — a read never requires an open
wallet — but a synthesized WRITE invocation does NOT fail with
`WalletClosed`: `WriteContractCommand.Execute` performs no open-wallet
check and proceeds all the way to the RPC write call, passing the nil
key to the transport, and here returns the submission acknowledgement. -/
theorem claim_C2 :
    eeToken.key = none ∧
      (ReadContractCommand.Execute { parseResult := balanceOfInvocation } eeToken).1 =
        .ok { message := ["value: 500"] } ∧
      (WriteContractCommand.Execute { parseResult := transferInvocation } eeToken).1 =
        .ok { message := ["Transaction submitted to contract " ++ quoteChar ++ "token"
          ++ quoteChar ++ " at address 0x1234 ."] } := by
  refine ⟨rfl, ?_, ?_⟩ <;> rfl

/-- The register invocation storing the syntactically invalid contract
address `zz`. -/
def regBadAddr : RegisterCommand :=
  { name := "badtoken", address := "zz", abiFilename := "abi.json" }

/-- The environment produced by registering `badtoken` at the invalid
address `zz`. -/
def eeBadAddr : ExecutionEnvironment :=
  (RegisterCommand.Execute tokenCodecs regBadAddr emptyEE).2

/-- Claim C3 (code bug): registration never validates the contract
address — registering `badtoken` at the non-hex address `zz` succeeds —
and a later invocation of either the synthesized read command or the
synthesized write command on that contract terminates in the Go
`panic("Invalid contract ID")` rather than returning an error value. -/
theorem claim_C3 :
    (RegisterCommand.Execute tokenCodecs regBadAddr emptyEE).1 =
        .ok { message := ["Contract " ++ quoteChar ++ "badtoken" ++ quoteChar
          ++ " at address zz registered."] } ∧
      (ReadContractCommand.Execute
          { parseResult := { commandName := "badtoken.balance_of",
                             args := [("owner", "abcd")] } } eeBadAddr).1 =
        .panic "Invalid contract ID" ∧
      (WriteContractCommand.Execute
          { parseResult := { commandName := "badtoken.transfer",
                             args := [("to", "abcd"), ("value", "100")] } } eeBadAddr).1 =
        .panic "Invalid contract ID" := by
  refine ⟨?_, ?_, ?_⟩ <;> rfl

-- ---------------------------------------------------------------------------
-- Claim C4: entry point parsing
-- ---------------------------------------------------------------------------

/-- Value of a hex digit string (most significant digit first). -/
def hexValueOf (cs : List Char) : Nat :=
  cs.foldl (fun a c => a * 16 + (hexVal c).getD 0) 0

/-- `parseHexNatAux` on all-hex input computes the fold of the digit
values. -/
theorem parseHexNatAux_all (cs : List Char) :
    ∀ acc, (∀ c ∈ cs, (hexVal c).isSome = true) →
      parseHexNatAux acc cs =
        some (cs.foldl (fun a c => a * 16 + (hexVal c).getD 0) acc) := by
  induction cs with
  | nil => intro acc _; rfl
  | cons c rest ih =>
    intro acc h
    obtain ⟨v, hv⟩ := Option.isSome_iff_exists.mp (h c (List.mem_cons_self c rest))
    unfold parseHexNatAux
    rw [hv]
    simp only [List.foldl_cons, hv, Option.getD_some]
    exact ih _ (fun x hx => h x (List.mem_cons_of_mem c hx))

/-- Counterexample to claim C4: a plain decimal entry-point string is
NOT converted to its base-10 value — `"16"` loses its first two
characters to the `[2:]` slice, leaving the empty string, and the
command returns the raw `strconv` error (not 16, and not wrapped in
`InvalidABI`). -/
theorem claim_C4_counterexample :
    parseEntryPoint "16" = .error .errStrconv ∧ parseEntryPoint "16" ≠ .ok 16 := by
  refine ⟨by decide, by decide⟩

/-- Claim C4 as amended: the entry point string's first two characters
are discarded (the `[2:]` slice of the expected `0x` prefix) and the
remainder is parsed as a base-16 signed 32-bit integer at method
invocation time, so `0x`-prefixed hex strings yield their hex value
(`"0x10"` is 16), while a parse failure of the remainder yields the raw
`strconv` error rather than `InvalidABI`. -/
theorem claim_C4 (s : String) (cs : List Char)
    (hdata : s.data = '0' :: 'x' :: cs)
    (hne : cs ≠ [])
    (hhex : ∀ c ∈ cs, (hexVal c).isSome = true)
    (hrange : hexValueOf cs ≤ 2 ^ 31 - 1) :
    parseEntryPoint s = .ok ((hexValueOf cs : Nat) : Int) := by
  unfold parseEntryPoint
  rw [hdata]
  rw [if_neg (by simp)]
  have hdrop : ('0' :: 'x' :: cs).drop 2 = cs := rfl
  rw [hdrop]
  cases cs with
  | nil => exact absurd rfl hne
  | cons c0 rest =>
    have hc0 := hhex c0 (List.mem_cons_self c0 rest)
    have hminus : ¬ (c0 = '-') := by
      intro h; rw [h] at hc0; exact absurd hc0 (by decide)
    have hplus : ¬ (c0 = '+') := by
      intro h; rw [h] at hc0; exact absurd hc0 (by decide)
    have hparse : parseHexNat (c0 :: rest) = some (hexValueOf (c0 :: rest)) := by
      unfold parseHexNat hexValueOf
      exact parseHexNatAux_all _ 0 hhex
    simp [goParseIntHex32, hminus, hplus, hparse]
    rw [if_neg (by push_neg; exact ⟨by omega, by omega⟩)]

/-- Witness for the amended claim C4: the hex string `0x10` yields entry
point 16. -/
theorem claim_C4_witness : parseEntryPoint "0x10" = .ok 16 := by
  have h := claim_C4 "0x10" ['1', '0'] rfl (by decide) (by decide) (by decide)
  rw [h]
  decide

/-- Claim C8 (confirmed): the decode-and-render step of a read
invocation is deterministic — decoding equal response payloads against
the same return schema produces identical rendered text.  In this
embedding the step is a pure function of the payload and the schema, so
two runs on the same input cannot differ. -/
theorem claim_C8 (md : MessageDescriptor) (b1 b2 : List Nat) (h : b1 = b2) :
    decodeAndRender md b1 = decodeAndRender md b2 := by
  rw [h]

/-- Witness for C8 at the `balance_of` response schema and the payload
encoding 500: two runs agree, and the rendered text is `value: 500`. -/
theorem claim_C8_witness :
    decodeAndRender balanceRetDesc [2, 1, 244] = decodeAndRender balanceRetDesc [2, 1, 244] ∧
      decodeAndRender balanceRetDesc [2, 1, 244] = .ok "value: 500" :=
  ⟨claim_C8 balanceRetDesc [2, 1, 244] [2, 1, 244] rfl, rfl⟩

/-- Claim C9 (confirmed): read-class commands have no effect on the
execution environment — executing a synthesized read-contract command or
the balance command returns the environment (key, contract registry,
grammar, and every other field) unchanged, on every path, success,
error or panic alike. -/
theorem claim_C9 (c : ReadContractCommand) (b : BalanceCommand)
    (ee : ExecutionEnvironment) :
    (ReadContractCommand.Execute c ee).2 = ee ∧ (BalanceCommand.Execute b ee).2 = ee := by
  constructor
  · unfold ReadContractCommand.Execute
    dsimp only
    repeat' split
    all_goals rfl
  · unfold BalanceCommand.Execute
    dsimp only
    repeat' split
    all_goals rfl

/-- Claim C10 (confirmed): wallet open and create mutate the key
atomically — an execution of the open or create command that returns an
error leaves the environment (in particular `ee.Key`) unchanged, and on
success the key is assigned exactly the key object constructed after the
wallet file was fully read (open) or created and written (create). -/
theorem claim_C10 (w : WalletStore) (oc : OpenCommand) (cc : CreateCommand)
    (ee : ExecutionEnvironment) :
    (∀ e, (OpenCommand.Execute w oc ee).1 = .error e →
        (OpenCommand.Execute w oc ee).2 = ee) ∧
      (∀ r, (OpenCommand.Execute w oc ee).1 = .ok r →
        ∃ f kb k, w.osOpen oc.filename = .ok f ∧
          w.readWalletFile f oc.password = .ok kb ∧
          w.newKoinosKeysFromBytes kb = .ok k ∧
          (OpenCommand.Execute w oc ee).2 = { ee with key := some k }) ∧
      (∀ e, (CreateCommand.Execute w cc ee).1 = .error e →
        (CreateCommand.Execute w cc ee).2 = ee) ∧
      (∀ r, (CreateCommand.Execute w cc ee).1 = .ok r →
        ∃ f k, w.createFile cc.filename = .ok f ∧
          w.generateKoinosKey = .ok k ∧
          w.createWalletFile f cc.password k.privateBytes = .ok () ∧
          (CreateCommand.Execute w cc ee).2 = { ee with key := some k }) := by
  refine ⟨?_, ?_, ?_, ?_⟩
  · intro e he
    unfold OpenCommand.Execute at he ⊢
    rcases h1 : w.osOpen oc.filename with e1 | f
    · rfl
    · dsimp only
      rcases h2 : w.readWalletFile f oc.password with e2 | kb
      · rfl
      · dsimp only
        rcases h3 : w.newKoinosKeysFromBytes kb with e3 | k
        · rfl
        · simp [h1, h2, h3] at he
  · intro r hr
    unfold OpenCommand.Execute at hr ⊢
    rcases h1 : w.osOpen oc.filename with e1 | f
    · simp [h1] at hr
    · dsimp only
      rcases h2 : w.readWalletFile f oc.password with e2 | kb
      · simp [h1, h2] at hr
      · dsimp only
        rcases h3 : w.newKoinosKeysFromBytes kb with e3 | k
        · simp [h1, h2, h3] at hr
        · exact ⟨f, kb, k, rfl, h2, h3, rfl⟩
  · intro e he
    unfold CreateCommand.Execute at he ⊢
    cases hs : w.statNotExists cc.filename
    · rfl
    · rw [if_neg (show ¬ ¬ (true = true) from not_not_intro rfl)]
      rcases h1 : w.createFile cc.filename with e1 | f
      · rfl
      · dsimp only
        rcases h2 : w.generateKoinosKey with e2 | k
        · rfl
        · dsimp only
          rcases h3 : w.createWalletFile f cc.password k.privateBytes with e3 | u
          · rfl
          · simp [hs, h1, h2, h3] at he
  · intro r hr
    unfold CreateCommand.Execute at hr ⊢
    cases hs : w.statNotExists cc.filename
    · rw [hs] at hr
      simp at hr
    · rw [if_neg (show ¬ ¬ (true = true) from not_not_intro rfl)]
      rcases h1 : w.createFile cc.filename with e1 | f
      · simp [hs, h1] at hr
      · dsimp only
        rcases h2 : w.generateKoinosKey with e2 | k
        · simp [hs, h1, h2] at hr
        · dsimp only
          rcases h3 : w.createWalletFile f cc.password k.privateBytes with e3 | u
          · simp [hs, h1, h2, h3] at hr
          · exact ⟨f, k, rfl, rfl, h3, rfl⟩

/-- A wallet store whose decryption step fails. -/
def failingWalletStore : WalletStore :=
  { statNotExists := fun _ => true,
    createFile := fun f => .ok f,
    osOpen := fun f => .ok f,
    readWalletFile := fun _ _ => .error (.errOther "bad decrypt"),
    createWalletFile := fun _ _ _ => .ok (),
    generateKoinosKey := .error (.errOther "no entropy"),
    newKoinosKeysFromBytes := fun bs =>
      .ok { privateBytes := bs, addressStr := "addr", privateStr := "priv" } }

/-- Witness for C10: an open attempt whose decryption fails leaves the
environment — and thus the key — unchanged. -/
theorem claim_C10_witness :
    (OpenCommand.Execute failingWalletStore
        { filename := "wallet.dat", password := "pw" } eeToken).2 = eeToken :=
  (claim_C10 failingWalletStore { filename := "wallet.dat", password := "pw" }
      { filename := "wallet.dat", password := "pw" } eeToken).1 .errWalletDecrypt rfl

end KoinosCLI
